import Mathlib

/-!
Shallow embedding of the Telegram-Finbot market-data core
(`src/models/data_models.py`, `src/services/arbitrage_service.py`,
`src/services/market_view_service.py`, `src/data/websocket_client.py`,
`src/data/gomarket_client.py`).

Prices are embedded as rationals (`ℚ`), timestamps as seconds (`Nat`),
Python dicts as insertion-ordered association lists, exceptions as
`Except`/`Option`, and `asyncio` side effects (task creation, subscribe
messages, sleeps) as explicit effect records returned next to the state.
-/

/-- `MarketData` from `data_models.py`: one venue's BBO snapshot. -/
structure MarketData where
  symbol : String
  exchange : String
  bid_price : ℚ
  bid_size : ℚ
  ask_price : ℚ
  ask_size : ℚ
  last_price : ℚ
  timestamp : Nat
  deriving DecidableEq, Repr

/-- The validation enforced by `MarketData.__post_init__`: a `MarketData`
object can only be constructed when these hold. -/
def MarketData.Valid (d : MarketData) : Prop :=
  0 < d.bid_price ∧ 0 < d.ask_price ∧ 0 < d.bid_size ∧ 0 < d.ask_size ∧
    d.bid_price < d.ask_price

instance (d : MarketData) : Decidable d.Valid := by
  unfold MarketData.Valid; infer_instance

/-- `MarketData.is_fresh`: age in seconds at `now` is at most `maxAge`. -/
def MarketData.is_fresh (d : MarketData) (now maxAge : Nat) : Bool :=
  now - d.timestamp ≤ maxAge

/-- `ArbitrageOpportunity` from `data_models.py` (optional profit fields,
unused by the scanning code, are omitted). -/
structure ArbitrageOpportunity where
  symbol : String
  buy_exchange : String
  sell_exchange : String
  buy_price : ℚ
  sell_price : ℚ
  spread_percentage : ℚ
  spread_absolute : ℚ
  timestamp : Nat
  deriving DecidableEq, Repr

/-- `ConsolidatedBBO` from `data_models.py`. -/
structure ConsolidatedBBO where
  symbol : String
  best_bid_price : ℚ
  best_bid_exchange : String
  best_ask_price : ℚ
  best_ask_exchange : String
  mid_price : ℚ
  timestamp : Nat
  spread_absolute : ℚ
  spread_percentage : ℚ
  all_exchanges : List String
  deriving DecidableEq, Repr

/-- Constructing a `ConsolidatedBBO` runs `__post_init__`, which derives
`spread_absolute = ask - bid` and `spread_percentage = spread/bid*100`. -/
def mkConsolidatedBBO (symbol : String) (bb : ℚ) (be : String) (ba : ℚ)
    (ae : String) (mid : ℚ) (now : Nat) (all : List String) :
    ConsolidatedBBO :=
  { symbol := symbol
    best_bid_price := bb
    best_bid_exchange := be
    best_ask_price := ba
    best_ask_exchange := ae
    mid_price := mid
    timestamp := now
    spread_absolute := ba - bb
    spread_percentage := (ba - bb) / bb * 100
    all_exchanges := all }

/-- `find_arbitrage_opportunities` from `data_models.py`.  The dict
`market_data` is embedded as an insertion-ordered association list; the
nested loop over `exchanges[i]`, `exchanges[i+1:]` becomes recursion with
an inner `filterMap`.  `datetime.utcnow()` is the `now` parameter. -/
def find_arbitrage_opportunities (market_data : List (String × MarketData))
    (threshold_percentage : ℚ) (now : Nat) : List ArbitrageOpportunity :=
  match market_data with
  | [] => []
  | (buy_exchange, buy_data) :: rest =>
      (rest.filterMap fun (sell_exchange, sell_data) =>
        if sell_data.ask_price < buy_data.bid_price then
          let spread_absolute := buy_data.bid_price - sell_data.ask_price
          let spread_percentage := spread_absolute / sell_data.ask_price * 100
          if threshold_percentage ≤ spread_percentage then
            some { symbol := buy_data.symbol
                   buy_exchange := sell_exchange
                   sell_exchange := buy_exchange
                   buy_price := sell_data.ask_price
                   sell_price := buy_data.bid_price
                   spread_percentage := spread_percentage
                   spread_absolute := spread_absolute
                   timestamp := now }
          else none
        else none) ++ find_arbitrage_opportunities rest threshold_percentage now

/-- One step of the best-bid accumulator in `consolidate_bbo`'s loop:
`if data.bid_price > best_bid_price` (strict, so the first maximum wins). -/
def bidStep (acc : ℚ × String) (p : String × MarketData) : ℚ × String :=
  if acc.1 < p.2.bid_price then (p.2.bid_price, p.1) else acc

/-- One step of the best-ask accumulator in `consolidate_bbo`'s loop.
`none` models the initial `float('inf')`; `if data.ask_price < best_ask_price`
is strict, so the first minimum wins. -/
def askStep (acc : Option ℚ × String) (p : String × MarketData) :
    Option ℚ × String :=
  match acc.1 with
  | none => (some p.2.ask_price, p.1)
  | some q => if p.2.ask_price < q then (some p.2.ask_price, p.1) else acc

/-- The `for exchange, data in market_data.items()` loop of
`consolidate_bbo`, threading both accumulators. -/
def bboLoop (md : List (String × MarketData)) (b : ℚ × String)
    (a : Option ℚ × String) : (ℚ × String) × (Option ℚ × String) :=
  match md with
  | [] => (b, a)
  | p :: rest => bboLoop rest (bidStep b p) (askStep a p)

/-- `consolidate_bbo` from `data_models.py`.  Raising
`ValueError("Market data cannot be empty")` becomes `Except.error`; the
accumulator starts at `(0, "")` for the bid and `(inf, "")` for the ask
(`none` models `inf`; after a nonempty loop it is always `some`, so the
`getD 0` default is unreachable). -/
def consolidate_bbo (symbol : String) (market_data : List (String × MarketData))
    (now : Nat) : Except String ConsolidatedBBO :=
  match market_data with
  | [] => .error "Market data cannot be empty"
  | _ :: _ =>
      let r := bboLoop market_data (0, "") (none, "")
      let bb := r.1.1
      let ba := r.2.1.getD 0
      .ok (mkConsolidatedBBO symbol bb r.1.2 ba r.2.2 ((bb + ba) / 2) now
        (market_data.map (·.1)))

example :
    find_arbitrage_opportunities
      [("a", ⟨"S", "a", 100, 1, 101, 1, 100, 0⟩),
       ("b", ⟨"S", "b", 90, 1, 91, 1, 90, 0⟩)] 1 0 =
      [{ symbol := "S", buy_exchange := "b", sell_exchange := "a",
         buy_price := 91, sell_price := 100, spread_percentage := 900 / 91,
         spread_absolute := 9, timestamp := 0 }] := by
  norm_num [find_arbitrage_opportunities, List.filterMap]

/-- Python `dict[k] = v` on an insertion-ordered association list: replace
the value in place if the key exists, otherwise append. -/
def updA {α β : Type} [BEq α] (l : List (α × β)) (k : α) (v : β) :
    List (α × β) :=
  if l.any (·.1 == k) then
    l.map fun p => if p.1 == k then (k, v) else p
  else l ++ [(k, v)]

/-- The freshness-and-guard step of `MarketViewService._market_view_loop`
(lines 327-343): filter the symbol's cache to the session's exchanges, keep
entries fresh within `2 * update_interval`, and compute the CBBO only when
at least 2 fresh exchanges remain — otherwise the symbol is skipped. -/
def marketViewIteration (symbol : String) (cache : List (String × MarketData))
    (sessionExchanges : List String) (update_interval now : Nat) :
    Option (Except String ConsolidatedBBO) :=
  let filtered := cache.filter fun p => sessionExchanges.contains p.1
  let fresh := filtered.filter fun p => p.2.is_fresh now (update_interval * 2)
  if 2 ≤ fresh.length then some (consolidate_bbo symbol fresh now)
  else none

/-- The freshness-and-guard step of
`ArbitrageService._check_arbitrage_opportunities` for one symbol
(lines 371-401): filter to monitored exchanges, drop entries older than 60
seconds, and scan only when at least 2 fresh exchanges remain. -/
def checkArbitrageForSymbol (cache : List (String × MarketData))
    (monitoredExchanges : List String) (threshold : ℚ) (now : Nat) :
    List ArbitrageOpportunity :=
  let filtered := cache.filter fun p => monitoredExchanges.contains p.1
  if filtered.length < 2 then []
  else
    let fresh := filtered.filter fun p => p.2.is_fresh now 60
    if fresh.length < 2 then []
    else find_arbitrage_opportunities fresh threshold now

/-- Subscription key `f"{exchange}:{symbol}"` used by `WebSocketClient`. -/
def subKey (exchange symbol : String) : String := exchange ++ ":" ++ symbol

/-- The mutable fields of `WebSocketClient` (`websocket_client.py`).
Callbacks are identified by `Nat` ids; `polling_tasks` holds the keys whose
polling task is running. -/
structure WSState where
  is_connected : Bool
  is_running : Bool
  use_polling : Bool
  reconnect_count : Nat
  max_reconnect_attempts : Nat
  subscriptions : List (String × List Nat)
  polling_tasks : List String
  deriving DecidableEq, Repr

/-- `WebSocketClient._start_polling`: create the polling task for the key
unless one already exists. -/
def WSState.startPolling (s : WSState) (key : String) : WSState :=
  if s.polling_tasks.contains key then s
  else { s with polling_tasks := s.polling_tasks ++ [key] }

/-- `WebSocketClient.subscribe`: append the callback to the key's list
(creating the entry on first subscriber), then start polling (polling mode)
or send a subscribe message (streaming mode; no state change). -/
def WSState.subscribe (s : WSState) (exchange symbol : String) (cb : Nat) :
    WSState :=
  let key := subKey exchange symbol
  let subs :=
    if s.subscriptions.any (·.1 == key) then
      s.subscriptions.map fun p => if p.1 == key then (p.1, p.2 ++ [cb]) else p
    else s.subscriptions ++ [(key, [cb])]
  let s' := { s with subscriptions := subs }
  if s'.use_polling then s'.startPolling key else s'

/-- `WebSocketClient.unsubscribe`: if the key is present, delete the whole
subscription entry and cancel its polling task if one exists. -/
def WSState.unsubscribe (s : WSState) (exchange symbol : String) : WSState :=
  let key := subKey exchange symbol
  if s.subscriptions.any (·.1 == key) then
    { s with subscriptions := s.subscriptions.filter fun p => p.1 != key
             polling_tasks := s.polling_tasks.filter fun k => k != key }
  else s

/-- Outcome of one `WebSocketClient.connect()` call: the websocket opens,
or it fails and the client falls back to polling (still returning `True`),
or the surrounding handler fails entirely (returns `False`). -/
inductive ConnectOutcome
  | wsOk
  | wsFail
  | totalFail
  deriving DecidableEq, Repr

/-- `WebSocketClient.connect`: state effect and returned boolean. -/
def WSState.connect (s : WSState) (o : ConnectOutcome) : WSState × Bool :=
  match o with
  | .wsOk =>
      ({ s with is_connected := true, reconnect_count := 0,
                use_polling := false }, true)
  | .wsFail => ({ s with use_polling := true }, true)
  | .totalFail => (s, false)

/-- `WebSocketClient._reconnect`: at `reconnect_count >= max` the client
degrades to polling (no connection attempt is made); otherwise it counts
the attempt, sleeps, and calls `connect` (a success resends subscribe
messages, which does not change this state). -/
def WSState.reconnect (s : WSState) (o : ConnectOutcome) : WSState :=
  if s.max_reconnect_attempts ≤ s.reconnect_count then
    { s with use_polling := true, is_running := true }
  else
    let s1 := { s with reconnect_count := s.reconnect_count + 1 }
    (s1.connect o).1

/-- The callback ids a poll tick for `key` delivers to: the worker exists
only while its task is registered, its loop requires `is_running` and the
key still subscribed, and `_notify_callbacks` fans out to the key's list. -/
def pollDeliveries (s : WSState) (key : String) : List Nat :=
  if s.polling_tasks.contains key ∧ s.is_running = true then
    match s.subscriptions.lookup key with
    | some cbs => cbs
    | none => []
  else []

/-- The events the websocket client processes on its own (no explicit
restart): subscriber churn, a reconnect attempt, and poll ticks. -/
inductive WSEvent
  | subscribe (exchange symbol : String) (cb : Nat)
  | unsubscribe (exchange symbol : String)
  | reconnect (o : ConnectOutcome)
  | pollTick (key : String)
  deriving DecidableEq, Repr

/-- Transition function over the automatic events (a poll tick reads the
cache and notifies callbacks; it does not change this state). -/
def wsStep (s : WSState) (e : WSEvent) : WSState :=
  match e with
  | .subscribe ex sym cb => s.subscribe ex sym cb
  | .unsubscribe ex sym => s.unsubscribe ex sym
  | .reconnect o => s.reconnect o
  | .pollTick _ => s

/-- What the transport returns for one attempt of
`GoMarketClient._make_request`: an `aiohttp.ClientError`, or an HTTP
response with status, optional integer `Retry-After` header, whether the
body parses as JSON, and the body text. -/
inductive HttpResult
  | netError
  | response (status : Nat) (retryAfter : Option Nat) (jsonOk : Bool)
      (body : String)
  deriving DecidableEq, Repr

/-- The exception hierarchy of `gomarket_client.py`: `RateLimitError`
subclasses `GoMarketAPIError`. -/
inductive ApiError
  | rateLimit (msg : String)
  | api (msg : String)
  deriving DecidableEq, Repr

/-- `str(e)` of the exception. -/
def ApiError.msg : ApiError → String
  | .rateLimit m => m
  | .api m => m

/-- Whether the caller can catch the error as `RateLimitError`. -/
def ApiError.isRateLimit : ApiError → Bool
  | .rateLimit _ => true
  | .api _ => false

/-- Observable outcome of `_make_request`: HTTP requests issued, `sleep`
durations in order, and the returned body or raised exception. -/
structure ReqOutcome where
  requests : Nat
  sleeps : List Nat
  result : Except ApiError String
  deriving Repr

/-- `GoMarketClient._make_request` (`retry_attempts = 3`).  `oracle n` is
the transport's answer to the attempt with `retry_count = n`.  A 429
response sleeps the `Retry-After` duration (default 60) and raises
`RateLimitError`; status >= 400 raises `GoMarketAPIError`; a JSON parse
failure raises `GoMarketAPIError`.  All three raises happen inside the
`try` block, so the function's own `except Exception` handler catches them
and re-raises `GoMarketAPIError(f"Unexpected error: {e}")`.  Only
`aiohttp.ClientError` triggers the retry path, which replays the request
with exponential backoff `2 ** retry_count` while `retry_count < 3`. -/
def makeRequest (oracle : Nat → HttpResult) (rc : Nat) : ReqOutcome :=
  match oracle rc with
  | .netError =>
      if h : rc < 3 then
        let rest := makeRequest oracle (rc + 1)
        { requests := 1 + rest.requests
          sleeps := 2 ^ rc :: rest.sleeps
          result := rest.result }
      else
        { requests := 1, sleeps := []
          result := .error (.api "Network error after 3 retries") }
  | .response status retryAfter jsonOk body =>
      let inner : List Nat × Except ApiError String :=
        if status == 429 then
          ([retryAfter.getD 60], .error (.rateLimit "Rate limit exceeded"))
        else if 400 ≤ status then
          ([], .error (.api ("HTTP " ++ toString status ++ ": " ++ body)))
        else if jsonOk then ([], .ok body)
        else ([], .error (.api "Invalid JSON response"))
      match inner.2 with
      | .ok d => { requests := 1, sleeps := inner.1, result := .ok d }
      | .error e =>
          { requests := 1, sleeps := inner.1
            result := .error (.api ("Unexpected error: " ++ e.msg)) }
  termination_by 3 - rc
  decreasing_by omega

/-- `MonitoringConfig` from `data_models.py` (the fields the service
uses). -/
structure MonitoringConfig where
  chat_id : Int
  symbols : List String
  exchanges : List String
  threshold_percentage : ℚ
  is_active : Bool
  update_interval : Nat
  deriving DecidableEq, Repr

/-- The mutable fields of `ArbitrageService` (`arbitrage_service.py`).
Tasks are identified by `Nat` ids; cooldown times are seconds. -/
structure ArbState where
  monitoring_sessions : List (Int × MonitoringConfig)
  active_tasks : List (Int × Nat)
  opportunity_history : List ArbitrageOpportunity
  alert_cooldowns : List (String × Nat)
  deriving DecidableEq, Repr

/-- `alert_cooldown_minutes = 1` in `ArbitrageService.__init__`. -/
def alert_cooldown_minutes : Nat := 1

/-- The cooldown key
`f"{opportunity.symbol}:{opportunity.buy_exchange}:{opportunity.sell_exchange}"`. -/
def oppKey (o : ArbitrageOpportunity) : String :=
  o.symbol ++ ":" ++ o.buy_exchange ++ ":" ++ o.sell_exchange

/-- `ArbitrageService._is_alert_cooldown_active`: active iff the key fired
and `utcnow() < last_alert_time + timedelta(minutes=1)`. -/
def isAlertCooldownActive (s : ArbState) (key : String) (now : Nat) : Bool :=
  match s.alert_cooldowns.lookup key with
  | none => false
  | some t => now < t + 60 * alert_cooldown_minutes

/-- `ArbitrageService._process_opportunity`: under an active cooldown the
opportunity is dropped (no history append, no cooldown write, no alert);
otherwise it is appended to history, the key's firing time is set to `now`,
and the alert `(chat_id, opportunity)` is sent. -/
def processOpportunity (chat_id : Int) (s : ArbState)
    (o : ArbitrageOpportunity) (now : Nat) :
    ArbState × Option (Int × ArbitrageOpportunity) :=
  let key := oppKey o
  if isAlertCooldownActive s key now then (s, none)
  else
    ({ s with opportunity_history := s.opportunity_history ++ [o],
              alert_cooldowns := updA s.alert_cooldowns key now },
     some (chat_id, o))

/-- Side effects of `ArbitrageService.start_monitoring`: whether a
monitoring task was launched and which `(exchange, symbol)` pairs were
subscribed on the data-stream manager. -/
structure StartEffects where
  taskCreated : Bool
  subscribeCalls : List (String × String)
  deriving DecidableEq, Repr

/-- `ArbitrageService.start_monitoring`: if a session already exists for
`chat_id`, only the stored configuration is replaced and the method
returns; otherwise the session is registered, a monitoring task launched,
and every `(exchange, symbol)` pair subscribed (symbols outer loop,
exchanges inner, as in `_subscribe_to_symbols`). -/
def startMonitoring (s : ArbState) (cfg : MonitoringConfig)
    (freshTaskId : Nat) : ArbState × StartEffects :=
  if s.monitoring_sessions.any (·.1 == cfg.chat_id) then
    ({ s with monitoring_sessions := updA s.monitoring_sessions cfg.chat_id cfg },
     { taskCreated := false, subscribeCalls := [] })
  else
    ({ s with
         monitoring_sessions := s.monitoring_sessions ++ [(cfg.chat_id, cfg)],
         active_tasks := s.active_tasks ++ [(cfg.chat_id, freshTaskId)] },
     { taskCreated := true,
       subscribeCalls :=
         cfg.symbols.flatMap fun sym => cfg.exchanges.map fun ex => (ex, sym) })

theorem find?_congrOn {γ : Type} (l : List γ) (f g : γ → Bool)
    (h : ∀ x ∈ l, f x = g x) : l.find? f = l.find? g := by
  induction l with
  | nil => rfl
  | cons x xs ih =>
      have hx : f x = g x := h x (List.mem_cons_self x xs)
      by_cases hfx : f x = true
      · rw [List.find?_cons_of_pos _ hfx, List.find?_cons_of_pos _ (hx ▸ hfx)]
      · have hfx' : ¬ g x = true := fun hg => hfx (hx ▸ hg)
        rw [List.find?_cons_of_neg _ hfx, List.find?_cons_of_neg _ hfx']
        exact ih fun y hy => h y (List.mem_cons_of_mem _ hy)

theorem beq_symm_false {α : Type} [BEq α] [LawfulBEq α] {a b : α}
    (h : (a == b) = false) : (b == a) = false :=
  beq_false_of_ne fun hba => (beq_eq_false_iff_ne.mp h) hba.symm

theorem lookup_map_upd {α β : Type} [BEq α] [LawfulBEq α]
    (l : List (α × β)) (k : α) (v : β) (h : l.any (·.1 == k) = true) :
    (l.map fun p => if p.1 == k then (k, v) else p).lookup k = some v := by
  induction l with
  | nil => simp at h
  | cons p rest ih =>
      obtain ⟨pk, pv⟩ := p
      simp only [List.any_cons, Bool.or_eq_true] at h
      simp only [List.map_cons]
      cases hp : (pk == k) with
      | true =>
          simp only [hp, if_true, List.lookup_cons, beq_self_eq_true]
      | false =>
          have hk : (k == pk) = false := beq_symm_false hp
          rcases h with h | h
          · exact absurd h (by simp [hp])
          · simp only [hp, Bool.false_eq_true, if_false, List.lookup_cons, hk]
            exact ih h

theorem lookup_append_absent {α β : Type} [BEq α] [LawfulBEq α]
    (l : List (α × β)) (k : α) (v : β) (h : l.any (·.1 == k) = false) :
    (l ++ [(k, v)]).lookup k = some v := by
  induction l with
  | nil => simp [List.lookup_cons]
  | cons p rest ih =>
      obtain ⟨pk, pv⟩ := p
      simp only [List.any_cons, Bool.or_eq_false_iff] at h
      have hk : (k == pk) = false := beq_symm_false h.1
      simp only [List.cons_append, List.lookup_cons, hk]
      exact ih h.2

theorem lookup_updA_self {α β : Type} [BEq α] [LawfulBEq α]
    (l : List (α × β)) (k : α) (v : β) :
    (updA l k v).lookup k = some v := by
  unfold updA
  by_cases h : l.any (·.1 == k) = true
  · simp only [h, if_true]
    exact lookup_map_upd l k v h
  · simp only [Bool.not_eq_true] at h
    simp only [h, Bool.false_eq_true, if_false]
    exact lookup_append_absent l k v h

theorem lookup_map_upd_ne {α β : Type} [BEq α] [LawfulBEq α]
    (l : List (α × β)) (k k' : α) (v : β) (h : (k' == k) = false) :
    (l.map fun p => if p.1 == k then (k, v) else p).lookup k' =
      l.lookup k' := by
  induction l with
  | nil => rfl
  | cons p rest ih =>
      obtain ⟨pk, pv⟩ := p
      simp only [List.map_cons]
      cases hp : (pk == k) with
      | true =>
          have hpk : pk = k := beq_iff_eq.mp hp
          have hk1 : (k' == pk) = false := by rw [hpk]; exact h
          simp only [hp, if_true, List.lookup_cons, hk1, h]
          exact ih
      | false =>
          simp only [hp, Bool.false_eq_true, if_false, List.lookup_cons]
          cases hk' : (k' == pk) with
          | true => rfl
          | false => exact ih

theorem lookup_append_single_ne {α β : Type} [BEq α] [LawfulBEq α]
    (l : List (α × β)) (k k' : α) (v : β) (h : (k' == k) = false) :
    (l ++ [(k, v)]).lookup k' = l.lookup k' := by
  induction l with
  | nil => simp [List.lookup_cons, h]
  | cons p rest ih =>
      obtain ⟨pk, pv⟩ := p
      simp only [List.cons_append, List.lookup_cons]
      cases hk' : (k' == pk) with
      | true => rfl
      | false => exact ih

theorem lookup_updA_ne {α β : Type} [BEq α] [LawfulBEq α]
    (l : List (α × β)) (k k' : α) (v : β) (h : (k' == k) = false) :
    (updA l k v).lookup k' = l.lookup k' := by
  unfold updA
  split
  · exact lookup_map_upd_ne l k k' v h
  · exact lookup_append_single_ne l k k' v h

theorem lookup_filter_ne {β : Type} (l : List (String × β)) (k : String) :
    (l.filter fun p => p.1 != k).lookup k = none := by
  induction l with
  | nil => rfl
  | cons p rest ih =>
      obtain ⟨pk, pv⟩ := p
      cases hp : (pk == k) with
      | true =>
          rw [List.filter_cons_of_neg (by simp [bne, hp])]
          exact ih
      | false =>
          rw [List.filter_cons_of_pos (by simp [bne, hp])]
          have hk : (k == pk) = false := beq_symm_false hp
          rw [List.lookup_cons, hk]
          exact ih

theorem contains_filter_ne (l : List String) (k : String) :
    (l.filter fun x => x != k).contains k = false := by
  induction l with
  | nil => rfl
  | cons x rest ih =>
      cases hx : (x == k) with
      | true =>
          rw [List.filter_cons_of_neg (by simp [bne, hx])]
          exact ih
      | false =>
          rw [List.filter_cons_of_pos (by simp [bne, hx])]
          have hk : (k == x) = false := beq_symm_false hx
          simp only [List.contains_cons, hk, Bool.false_or]
          exact ih

theorem contains_append_self (l : List String) (k : String) :
    (l ++ [k]).contains k = true := by
  induction l with
  | nil => simp [List.contains_cons]
  | cons x rest ih => simp [List.contains_cons, ih]

/-- C3: for the snapshot map {binance: bid 50000/ask 50001, okx: bid
50050/ask 50051} in that iteration order and threshold 0.05%, the claim
(and the repository's own `test_find_arbitrage_opportunities`) expects one
signal buying binance@50001 and selling okx@50050; the code only tests
`okx.ask < binance.bid` (false here) and returns no signal at all. -/
theorem c3_example_scan_emits_nothing :
    find_arbitrage_opportunities
      [("binance", ⟨"BTC/USDT", "binance", 50000, 1, 50001, 1, 50000, 0⟩),
       ("okx", ⟨"BTC/USDT", "okx", 50050, 1, 50051, 1, 50050, 0⟩)]
      (1 / 20) 0 = [] := by
  norm_num [find_arbitrage_opportunities, List.filterMap]

/-- C7: an HTTP 429 response with `Retry-After: 17` makes `_make_request`
sleep 17 seconds and issue no replay, but the raised `RateLimitError` is
caught by the function's own `except Exception` handler and re-raised as a
plain `GoMarketAPIError("Unexpected error: Rate limit exceeded")`, which
the caller cannot distinguish as a rate-limit error and which carries no
retry-after hint. -/
theorem c7_429_wrapped_as_generic_api_error :
    makeRequest (fun _ => .response 429 (some 17) true "") 0 =
      { requests := 1, sleeps := [17],
        result := .error (.api "Unexpected error: Rate limit exceeded") } ∧
    (ApiError.api "Unexpected error: Rate limit exceeded").isRateLimit
      = false := by
  constructor
  · rw [makeRequest]
    rfl
  · rfl

/-- C2 (counterexample): a key with two subscriber callbacks and a running
polling task; a single `unsubscribe` call removes the whole entry (leaving
ref count 0, not >= 1), cancels the polling task, and a subsequent poll
tick delivers to nobody. -/
theorem c2_counterexample :
    (WSState.unsubscribe
        ⟨false, true, true, 0, 5, [("binance:BTCUSDT", [0, 1])],
          ["binance:BTCUSDT"]⟩ "binance" "BTCUSDT").subscriptions = [] ∧
    (WSState.unsubscribe
        ⟨false, true, true, 0, 5, [("binance:BTCUSDT", [0, 1])],
          ["binance:BTCUSDT"]⟩ "binance" "BTCUSDT").polling_tasks = [] ∧
    pollDeliveries
      (WSState.unsubscribe
        ⟨false, true, true, 0, 5, [("binance:BTCUSDT", [0, 1])],
          ["binance:BTCUSDT"]⟩ "binance" "BTCUSDT") "binance:BTCUSDT"
      = [] := by
  decide

/-- C2 (amended): `unsubscribe` for a present key removes the entire
subscription entry — every registered callback, however many subscribers
exist — and cancels the key's polling task; afterwards the key has no
subscribers and a poll tick delivers nothing.  No per-subscriber ref count
is enforced on unsubscribe. -/
theorem c2_unsubscribe_removes_entire_subscription (s : WSState)
    (ex sym : String)
    (h : s.subscriptions.any (·.1 == subKey ex sym) = true) :
    (s.unsubscribe ex sym).subscriptions.lookup (subKey ex sym) = none ∧
    (s.unsubscribe ex sym).polling_tasks.contains (subKey ex sym) = false ∧
    pollDeliveries (s.unsubscribe ex sym) (subKey ex sym) = [] := by
  unfold WSState.unsubscribe
  simp only [h, if_true]
  refine ⟨lookup_filter_ne _ _, contains_filter_ne _ _, ?_⟩
  unfold pollDeliveries
  rw [if_neg]
  intro hc
  rw [contains_filter_ne] at hc
  exact absurd hc.1 (by simp)

theorem c2_unsubscribe_removes_entire_subscription_witness :
    ([(subKey "okx" "ETHUSDT", [3, 4])].any
        (·.1 == subKey "okx" "ETHUSDT") = true) ∧
    ((WSState.mk false true true 0 5 [(subKey "okx" "ETHUSDT", [3, 4])]
        [subKey "okx" "ETHUSDT"]).unsubscribe "okx"
        "ETHUSDT").subscriptions.lookup (subKey "okx" "ETHUSDT") = none ∧
    ((WSState.mk false true true 0 5 [(subKey "okx" "ETHUSDT", [3, 4])]
        [subKey "okx" "ETHUSDT"]).unsubscribe "okx"
        "ETHUSDT").polling_tasks.contains (subKey "okx" "ETHUSDT") = false ∧
    pollDeliveries
      ((WSState.mk false true true 0 5 [(subKey "okx" "ETHUSDT", [3, 4])]
        [subKey "okx" "ETHUSDT"]).unsubscribe "okx" "ETHUSDT")
      (subKey "okx" "ETHUSDT") = [] :=
  ⟨by decide,
   c2_unsubscribe_removes_entire_subscription
     (WSState.mk false true true 0 5 [(subKey "okx" "ETHUSDT", [3, 4])]
       [subKey "okx" "ETHUSDT"]) "okx" "ETHUSDT" (by decide)⟩

/-- C5: with a recorded firing time `t` for the opportunity key, a signal
processed strictly before `t + 60` seconds is suppressed (state unchanged,
nothing emitted, nothing appended, firing time untouched), and a signal
processed at or after `t + 60` is emitted, appended to history, and the
key's firing time is updated to the new time. -/
theorem c5_cooldown_window (s : ArbState) (o : ArbitrageOpportunity)
    (chat : Int) (t now : Nat)
    (h : s.alert_cooldowns.lookup (oppKey o) = some t) :
    (now < t + 60 → processOpportunity chat s o now = (s, none)) ∧
    (t + 60 ≤ now →
      (processOpportunity chat s o now).2 = some (chat, o) ∧
      (processOpportunity chat s o now).1.opportunity_history =
        s.opportunity_history ++ [o] ∧
      (processOpportunity chat s o now).1.alert_cooldowns.lookup (oppKey o) =
        some now) := by
  have hact : isAlertCooldownActive s (oppKey o) now
      = decide (now < t + 60) := by
    unfold isAlertCooldownActive alert_cooldown_minutes
    rw [h]
  constructor
  · intro hw
    simp only [processOpportunity]
    rw [hact, if_pos (by simpa using hw)]
  · intro hw
    simp only [processOpportunity]
    rw [hact, if_neg (by simp only [decide_eq_true_eq]; omega)]
    exact ⟨rfl, rfl, lookup_updA_self _ _ _⟩

theorem c5_cooldown_window_witness :
    (ArbState.mk [] [] [] [("BTC:a:b", 100)]).alert_cooldowns.lookup
        (oppKey ⟨"BTC", "a", "b", 1, 2, 50, 1, 0⟩) = some 100 ∧
    ((100 + 10 < 100 + 60 →
      processOpportunity 7 (ArbState.mk [] [] [] [("BTC:a:b", 100)])
        ⟨"BTC", "a", "b", 1, 2, 50, 1, 0⟩ (100 + 10) =
        (ArbState.mk [] [] [] [("BTC:a:b", 100)], none)) ∧
     (100 + 60 ≤ 100 + 10 →
      (processOpportunity 7 (ArbState.mk [] [] [] [("BTC:a:b", 100)])
        ⟨"BTC", "a", "b", 1, 2, 50, 1, 0⟩ (100 + 10)).2 =
          some (7, ⟨"BTC", "a", "b", 1, 2, 50, 1, 0⟩) ∧
      (processOpportunity 7 (ArbState.mk [] [] [] [("BTC:a:b", 100)])
        ⟨"BTC", "a", "b", 1, 2, 50, 1, 0⟩ (100 + 10)).1.opportunity_history =
          (ArbState.mk [] [] [] [("BTC:a:b", 100)]).opportunity_history ++
            [⟨"BTC", "a", "b", 1, 2, 50, 1, 0⟩] ∧
      (processOpportunity 7 (ArbState.mk [] [] [] [("BTC:a:b", 100)])
        ⟨"BTC", "a", "b", 1, 2, 50, 1, 0⟩ (100 + 10)).1.alert_cooldowns.lookup
          (oppKey ⟨"BTC", "a", "b", 1, 2, 50, 1, 0⟩) = some (100 + 10))) :=
  ⟨by decide,
   c5_cooldown_window (ArbState.mk [] [] [] [("BTC:a:b", 100)])
     ⟨"BTC", "a", "b", 1, 2, 50, 1, 0⟩ 7 100 (100 + 10) (by decide)⟩

/-- C9: the cooldown key contains no session owner, so after an
opportunity is accepted for one owner at time `t`, processing the same
key for any other owner strictly before `t + 60` emits nothing and leaves
the state (history included) unchanged. -/
theorem c9_cooldown_shared_across_owners (s : ArbState)
    (o : ArbitrageOpportunity) (chat1 chat2 : Int) (t now : Nat)
    (hemit : (processOpportunity chat1 s o t).2 = some (chat1, o))
    (hwin : now < t + 60) :
    processOpportunity chat2 (processOpportunity chat1 s o t).1 o now =
      ((processOpportunity chat1 s o t).1, none) := by
  by_cases hc : isAlertCooldownActive s (oppKey o) t = true
  · exfalso
    simp only [processOpportunity] at hemit
    rw [if_pos hc] at hemit
    simp at hemit
  · rw [Bool.not_eq_true] at hc
    have hs1 : (processOpportunity chat1 s o t).1.alert_cooldowns.lookup
        (oppKey o) = some t := by
      simp only [processOpportunity]
      rw [if_neg (by simp [hc])]
      exact lookup_updA_self _ _ _
    have hact : isAlertCooldownActive (processOpportunity chat1 s o t).1
        (oppKey o) now = true := by
      unfold isAlertCooldownActive alert_cooldown_minutes
      rw [hs1]
      simpa using hwin
    conv_lhs => rw [processOpportunity]
    rw [hact]
    simp

theorem c9_cooldown_shared_across_owners_witness :
    (processOpportunity 7 (ArbState.mk [] [] [] [])
        ⟨"ETH", "a", "b", 1, 2, 50, 1, 0⟩ 40).2 =
      some (7, ⟨"ETH", "a", "b", 1, 2, 50, 1, 0⟩) ∧
    (40 : Nat) + 30 < 40 + 60 ∧
    processOpportunity 9
        (processOpportunity 7 (ArbState.mk [] [] [] [])
          ⟨"ETH", "a", "b", 1, 2, 50, 1, 0⟩ 40).1
        ⟨"ETH", "a", "b", 1, 2, 50, 1, 0⟩ (40 + 30) =
      ((processOpportunity 7 (ArbState.mk [] [] [] [])
          ⟨"ETH", "a", "b", 1, 2, 50, 1, 0⟩ 40).1, none) :=
  ⟨by decide, by decide,
   c9_cooldown_shared_across_owners (ArbState.mk [] [] [] [])
     ⟨"ETH", "a", "b", 1, 2, 50, 1, 0⟩ 7 9 40 (40 + 30) (by decide) (by decide)⟩

/-- C10: `start_monitoring` for an owner with an existing session replaces
only that owner's stored configuration: other owners' sessions are looked
up unchanged, no task is created, no subscription is made, and tasks,
history and cooldowns are untouched. -/
theorem c10_restart_replaces_config_only (s : ArbState)
    (cfg : MonitoringConfig) (tid : Nat)
    (h : s.monitoring_sessions.any (·.1 == cfg.chat_id) = true) :
    (startMonitoring s cfg tid).1.monitoring_sessions.lookup cfg.chat_id =
      some cfg ∧
    (∀ other : Int, (other == cfg.chat_id) = false →
      (startMonitoring s cfg tid).1.monitoring_sessions.lookup other =
        s.monitoring_sessions.lookup other) ∧
    (startMonitoring s cfg tid).1.active_tasks = s.active_tasks ∧
    (startMonitoring s cfg tid).1.opportunity_history =
      s.opportunity_history ∧
    (startMonitoring s cfg tid).1.alert_cooldowns = s.alert_cooldowns ∧
    (startMonitoring s cfg tid).2 =
      { taskCreated := false, subscribeCalls := [] } := by
  unfold startMonitoring
  rw [if_pos h]
  exact ⟨lookup_updA_self _ _ _,
    fun other ho => lookup_updA_ne _ _ _ _ ho, rfl, rfl, rfl, rfl⟩

/-- Concrete two-owner service state used to witness the C10 theorem. -/
def c10State : ArbState :=
  ⟨[(5, ⟨5, ["B"], ["a"], 1, true, 5⟩), (6, ⟨6, ["E"], ["b"], 1, true, 5⟩)],
   [(5, 0), (6, 1)], [], []⟩

/-- Concrete replacement configuration used to witness the C10 theorem. -/
def c10NewCfg : MonitoringConfig := ⟨5, ["S"], ["a", "b"], 2, true, 3⟩

theorem c10_restart_replaces_config_only_witness :
    (c10State.monitoring_sessions.any (·.1 == c10NewCfg.chat_id) = true) ∧
    ((startMonitoring c10State c10NewCfg 9).1.monitoring_sessions.lookup
        c10NewCfg.chat_id = some c10NewCfg ∧
     (∀ other : Int, (other == c10NewCfg.chat_id) = false →
       (startMonitoring c10State c10NewCfg 9).1.monitoring_sessions.lookup
         other = c10State.monitoring_sessions.lookup other) ∧
     (startMonitoring c10State c10NewCfg 9).1.active_tasks =
       c10State.active_tasks ∧
     (startMonitoring c10State c10NewCfg 9).1.opportunity_history =
       c10State.opportunity_history ∧
     (startMonitoring c10State c10NewCfg 9).1.alert_cooldowns =
       c10State.alert_cooldowns ∧
     (startMonitoring c10State c10NewCfg 9).2 =
       { taskCreated := false, subscribeCalls := [] }) :=
  ⟨by decide,
   c10_restart_replaces_config_only c10State c10NewCfg 9 (by decide)⟩

/-- C8 (counterexample): a client that was streaming, with one existing
subscription and `reconnect_count = max_reconnect_attempts = 5`; the
degrade step switches `use_polling` on but starts no polling task for the
existing subscription, so a poll tick delivers nothing — the subscription
does not keep receiving snapshots without a further subscribe call. -/
theorem c8_counterexample :
    ((WSState.mk true true false 5 5 [("binance:BTCUSDT", [0])]
        []).reconnect .wsOk).use_polling = true ∧
    ((WSState.mk true true false 5 5 [("binance:BTCUSDT", [0])]
        []).reconnect .wsOk).polling_tasks = [] ∧
    pollDeliveries
      ((WSState.mk true true false 5 5 [("binance:BTCUSDT", [0])]
        []).reconnect .wsOk) "binance:BTCUSDT" = [] := by
  decide

/-- Subscriber churn and poll ticks never touch the transport-mode flags
or the reconnect counters. -/
theorem subscribe_preserves_flags (s : WSState) (ex sym : String) (cb : Nat) :
    (s.subscribe ex sym cb).use_polling = s.use_polling ∧
    (s.subscribe ex sym cb).reconnect_count = s.reconnect_count ∧
    (s.subscribe ex sym cb).max_reconnect_attempts =
      s.max_reconnect_attempts := by
  unfold WSState.subscribe WSState.startPolling
  dsimp only
  split_ifs <;> simp

theorem unsubscribe_preserves_flags (s : WSState) (ex sym : String) :
    (s.unsubscribe ex sym).use_polling = s.use_polling ∧
    (s.unsubscribe ex sym).reconnect_count = s.reconnect_count ∧
    (s.unsubscribe ex sym).max_reconnect_attempts =
      s.max_reconnect_attempts := by
  unfold WSState.unsubscribe
  dsimp only
  split_ifs <;> simp

/-- C8 (amended): once `reconnect_count` has reached
`max_reconnect_attempts`, the degrade step only sets `use_polling` and
`is_running` (no connection attempt, no counter change, no polling task
started for existing subscriptions), and every automatic event preserves
the degraded polling state; a subscription starts delivering via polling
only when `subscribe` is called again for its key. -/
theorem c8_degrade_one_way_no_auto_polling (s : WSState)
    (o : ConnectOutcome) (e : WSEvent) (ex sym : String) (cb : Nat)
    (hmax : s.max_reconnect_attempts ≤ s.reconnect_count) :
    s.reconnect o = { s with use_polling := true, is_running := true } ∧
    (s.use_polling = true → (wsStep s e).use_polling = true ∧
      (wsStep s e).max_reconnect_attempts ≤ (wsStep s e).reconnect_count) ∧
    (s.use_polling = true →
      ((s.subscribe ex sym cb).polling_tasks.contains (subKey ex sym))
        = true) := by
  refine ⟨?_, ?_, ?_⟩
  · unfold WSState.reconnect
    rw [if_pos hmax]
  · intro hp
    cases e with
    | subscribe ex' sym' cb' =>
        have h := subscribe_preserves_flags s ex' sym' cb'
        simp only [wsStep]
        rw [h.1, h.2.1, h.2.2]
        exact ⟨hp, hmax⟩
    | unsubscribe ex' sym' =>
        have h := unsubscribe_preserves_flags s ex' sym'
        simp only [wsStep]
        rw [h.1, h.2.1, h.2.2]
        exact ⟨hp, hmax⟩
    | reconnect o' =>
        simp only [wsStep]
        unfold WSState.reconnect
        rw [if_pos hmax]
        exact ⟨rfl, hmax⟩
    | pollTick k => exact ⟨hp, hmax⟩
  · intro hp
    unfold WSState.subscribe WSState.startPolling
    simp only [hp, if_true]
    split
    · next hc => exact hc
    · exact contains_append_self _ _

theorem c8_degrade_one_way_no_auto_polling_witness :
    ((WSState.mk true true false 3 3 [("okx:SOLUSDT", [2])] []).reconnect
        .wsFail = { WSState.mk true true false 3 3 [("okx:SOLUSDT", [2])] []
          with use_polling := true, is_running := true }) ∧
    ((WSState.mk true true false 3 3 [("okx:SOLUSDT", [2])]
        []).use_polling = true →
      (wsStep (WSState.mk true true false 3 3 [("okx:SOLUSDT", [2])] [])
        (.pollTick "okx:SOLUSDT")).use_polling = true ∧
      (wsStep (WSState.mk true true false 3 3 [("okx:SOLUSDT", [2])] [])
        (.pollTick "okx:SOLUSDT")).max_reconnect_attempts ≤
      (wsStep (WSState.mk true true false 3 3 [("okx:SOLUSDT", [2])] [])
        (.pollTick "okx:SOLUSDT")).reconnect_count) ∧
    ((WSState.mk true true false 3 3 [("okx:SOLUSDT", [2])]
        []).use_polling = true →
      (((WSState.mk true true false 3 3 [("okx:SOLUSDT", [2])]
        []).subscribe "okx" "SOLUSDT" 4).polling_tasks.contains
          (subKey "okx" "SOLUSDT")) = true) :=
  c8_degrade_one_way_no_auto_polling
    (WSState.mk true true false 3 3 [("okx:SOLUSDT", [2])] [])
    .wsFail (.pollTick "okx:SOLUSDT") "okx" "SOLUSDT" 4 (by decide)

/-- C6 (counterexample): for a snapshot map with exactly one exchange,
`consolidate_bbo` does not raise — it returns a quote in which the single
venue supplies both best bid and best ask. -/
theorem c6_counterexample :
    ((consolidate_bbo "BTC/USDT"
        [("binance", ⟨"BTC/USDT", "binance", 50000, 1, 50001, 1, 50000, 0⟩)]
        0).toOption.map fun c => (c.best_bid_exchange, c.best_ask_exchange)) =
      some ("binance", "binance") := by
  rfl

/-- C6 (amended): `consolidate_bbo` raises only for an empty snapshot map
and succeeds on any nonempty one; for a single-exchange map it returns a
quote in which that venue supplies both best bid and best ask.  The loops
are the place where fewer than 2 fresh exchanges leads to a skip: both the
market-view iteration and the per-symbol arbitrage check skip the symbol
when fewer than 2 fresh exchanges remain. -/
theorem c6_insufficient_data_behavior (sym : String) (now : Nat)
    (md : List (String × MarketData)) (ex : String) (d : MarketData)
    (cache : List (String × MarketData)) (sessEx monEx : List String)
    (iv : Nat) (th : ℚ)
    (hmd : md ≠ []) (hv : 0 < d.bid_price)
    (hfresh : ((cache.filter fun p => sessEx.contains p.1).filter fun p =>
        p.2.is_fresh now (iv * 2)).length < 2)
    (hfresh2 : ((cache.filter fun p => monEx.contains p.1).filter fun p =>
        p.2.is_fresh now 60).length < 2) :
    consolidate_bbo sym [] now = .error "Market data cannot be empty" ∧
    (∃ c, consolidate_bbo sym md now = .ok c) ∧
    consolidate_bbo sym [(ex, d)] now =
      .ok (mkConsolidatedBBO sym d.bid_price ex d.ask_price ex
        ((d.bid_price + d.ask_price) / 2) now [ex]) ∧
    marketViewIteration sym cache sessEx iv now = none ∧
    checkArbitrageForSymbol cache monEx th now = [] := by
  refine ⟨rfl, ?_, ?_, ?_, ?_⟩
  · match md, hmd with
    | p :: rest, _ => exact ⟨_, rfl⟩
  · unfold consolidate_bbo bboLoop bidStep askStep
    rw [if_pos hv]
    rfl
  · unfold marketViewIteration
    rw [if_neg (by omega)]
  · unfold checkArbitrageForSymbol
    dsimp only
    by_cases h1 : (cache.filter fun p => monEx.contains p.1).length < 2
    · rw [if_pos h1]
    · rw [if_neg h1, if_pos hfresh2]

theorem c6_insufficient_data_behavior_witness :
    (([("a", (⟨"X", "a", 3, 1, 4, 1, 3, 0⟩ : MarketData))] :
        List (String × MarketData)) ≠ []) ∧
    (0 : ℚ) < (3 : ℚ) ∧
    (consolidate_bbo "X" [] 7 = .error "Market data cannot be empty" ∧
     (∃ c, consolidate_bbo "X"
        [("a", ⟨"X", "a", 3, 1, 4, 1, 3, 0⟩)] 7 = .ok c) ∧
     consolidate_bbo "X" [("b", ⟨"X", "b", 3, 1, 4, 1, 3, 0⟩)] 7 =
       .ok (mkConsolidatedBBO "X"
         (MarketData.mk "X" "b" 3 1 4 1 3 0).bid_price "b"
         (MarketData.mk "X" "b" 3 1 4 1 3 0).ask_price "b"
         (((MarketData.mk "X" "b" 3 1 4 1 3 0).bid_price +
           (MarketData.mk "X" "b" 3 1 4 1 3 0).ask_price) / 2) 7 ["b"]) ∧
     marketViewIteration "X" [] ["a"] 5 7 = none ∧
     checkArbitrageForSymbol [] ["a"] 1 7 = []) :=
  ⟨by decide, by decide,
   c6_insufficient_data_behavior "X" 7
     [("a", ⟨"X", "a", 3, 1, 4, 1, 3, 0⟩)] "b" ⟨"X", "b", 3, 1, 4, 1, 3, 0⟩
     [] ["a"] ["a"] 5 1 (by decide) (by decide) (by decide) (by decide)⟩

/-- Reference definition taken from the claim's wording (not from the
source): the ordered pairs (i, j) of entries with i before j in iteration
order. -/
def orderedPairs {γ : Type} : List γ → List (γ × γ)
  | [] => []
  | x :: rest => (rest.map fun y => (x, y)) ++ orderedPairs rest

/-- Reference definition taken from the claim's wording (not from the
source): the signal emitted for the ordered pair (i, j) — present exactly
when `snapshots[j].ask < snapshots[i].bid` and
`(bid - ask)/ask*100 >= threshold`, buying at the lower-ask exchange j at
j's ask and selling at the higher-bid exchange i at i's bid. -/
def claimSignal (threshold : ℚ) (now : Nat)
    (p : (String × MarketData) × (String × MarketData)) :
    Option ArbitrageOpportunity :=
  if p.2.2.ask_price < p.1.2.bid_price ∧
      threshold ≤ (p.1.2.bid_price - p.2.2.ask_price) / p.2.2.ask_price * 100
  then
    some { symbol := p.1.2.symbol
           buy_exchange := p.2.1
           sell_exchange := p.1.1
           buy_price := p.2.2.ask_price
           sell_price := p.1.2.bid_price
           spread_percentage :=
             (p.1.2.bid_price - p.2.2.ask_price) / p.2.2.ask_price * 100
           spread_absolute := p.1.2.bid_price - p.2.2.ask_price
           timestamp := now }
  else none

/-- C4: over any map of valid snapshots, `find_arbitrage_opportunities`
emits exactly the signals described by the claim — one per ordered pair
(i before j in iteration order) with `snapshots[j].ask < snapshots[i].bid`
and spread percentage at least the threshold, with buy at j's ask and sell
at i's bid and the stated derived fields. -/
theorem c4_scan_matches_pairwise_description
    (md : List (String × MarketData)) (t : ℚ) (now : Nat)
    (hv : ∀ p ∈ md, p.2.Valid) :
    find_arbitrage_opportunities md t now =
      (orderedPairs md).filterMap (claimSignal t now) := by
  induction md with
  | nil => rfl
  | cons x rest ih =>
      obtain ⟨bex, bd⟩ := x
      simp only [find_arbitrage_opportunities, orderedPairs,
        List.filterMap_append, List.filterMap_map]
      have hfun : (fun (q : String × MarketData) =>
          if q.2.ask_price < bd.bid_price then
            if t ≤ (bd.bid_price - q.2.ask_price) / q.2.ask_price * 100 then
              some { symbol := bd.symbol
                     buy_exchange := q.1
                     sell_exchange := bex
                     buy_price := q.2.ask_price
                     sell_price := bd.bid_price
                     spread_percentage :=
                       (bd.bid_price - q.2.ask_price) / q.2.ask_price * 100
                     spread_absolute := bd.bid_price - q.2.ask_price
                     timestamp := now }
            else none
          else none) =
          (claimSignal t now ∘ fun y => ((bex, bd), y)) := by
        funext q
        obtain ⟨sex, sd⟩ := q
        simp only [Function.comp_apply, claimSignal]
        by_cases h1 : sd.ask_price < bd.bid_price
        · by_cases h2 : t ≤ (bd.bid_price - sd.ask_price) / sd.ask_price * 100
          · rw [if_pos h1, if_pos h2, if_pos ⟨h1, h2⟩]
          · rw [if_pos h1, if_neg h2, if_neg (by tauto)]
        · rw [if_neg h1, if_neg (by tauto)]
      rw [hfun, ih fun p hp => hv p (List.mem_cons_of_mem _ hp)]

theorem c4_scan_matches_pairwise_description_witness :
    (∀ p ∈ ([("a", (⟨"S", "a", 100, 1, 101, 1, 100, 0⟩ : MarketData)),
             ("b", (⟨"S", "b", 90, 1, 91, 1, 90, 0⟩ : MarketData))] :
        List (String × MarketData)), p.2.Valid) ∧
    find_arbitrage_opportunities
        [("a", ⟨"S", "a", 100, 1, 101, 1, 100, 0⟩),
         ("b", ⟨"S", "b", 90, 1, 91, 1, 90, 0⟩)] 1 0 =
      (orderedPairs
        [("a", ⟨"S", "a", 100, 1, 101, 1, 100, 0⟩),
         ("b", ⟨"S", "b", 90, 1, 91, 1, 90, 0⟩)]).filterMap
        (claimSignal 1 0) :=
  ⟨by decide,
   c4_scan_matches_pairwise_description
     [("a", ⟨"S", "a", 100, 1, 101, 1, 100, 0⟩),
      ("b", ⟨"S", "b", 90, 1, 91, 1, 90, 0⟩)] 1 0 (by decide)⟩

/-- The best-bid accumulator threaded through `consolidate_bbo`'s loop on
its own. -/
def bidFold (md : List (String × MarketData)) (acc : ℚ × String) :
    ℚ × String :=
  match md with
  | [] => acc
  | p :: rest => bidFold rest (bidStep acc p)

/-- The best-ask accumulator threaded through `consolidate_bbo`'s loop on
its own. -/
def askFold (md : List (String × MarketData)) (acc : Option ℚ × String) :
    Option ℚ × String :=
  match md with
  | [] => acc
  | p :: rest => askFold rest (askStep acc p)

theorem bboLoop_eq (md : List (String × MarketData)) (b : ℚ × String)
    (a : Option ℚ × String) : bboLoop md b a = (bidFold md b, askFold md a) := by
  induction md generalizing b a with
  | nil => rfl
  | cons p rest ih => simp only [bboLoop, bidFold, askFold, ih]

/-- The ask accumulator once it has left the `inf` initial state. -/
def askFoldQ (md : List (String × MarketData)) (acc : ℚ × String) :
    ℚ × String :=
  match md with
  | [] => acc
  | p :: rest =>
      askFoldQ rest
        (if p.2.ask_price < acc.1 then (p.2.ask_price, p.1) else acc)

theorem askFold_some (md : List (String × MarketData)) (v : ℚ) (e : String) :
    askFold md (some v, e) =
      (some (askFoldQ md (v, e)).1, (askFoldQ md (v, e)).2) := by
  induction md generalizing v e with
  | nil => rfl
  | cons p rest ih =>
      show askFold rest (askStep (some v, e) p) = _
      have hstep : askStep (some v, e) p =
          if p.2.ask_price < v then (some p.2.ask_price, p.1) else (some v, e) := by
        simp only [askStep]
      by_cases h : p.2.ask_price < v
      · rw [hstep, if_pos h]
        have : askFoldQ (p :: rest) (v, e) = askFoldQ rest (p.2.ask_price, p.1) := by
          simp only [askFoldQ, if_pos h]
        rw [this]
        exact ih _ _
      · rw [hstep, if_neg h]
        have : askFoldQ (p :: rest) (v, e) = askFoldQ rest (v, e) := by
          simp only [askFoldQ, if_neg h]
        rw [this]
        exact ih _ _

/-- How `bidFold` relates to its input: either nothing beats the seed and
the accumulator is returned unchanged, or the result is the maximum bid
and the exchange of the first entry attaining it. -/
theorem bidFold_spec (l : List (String × MarketData)) (v : ℚ) (e : String) :
    (bidFold l (v, e) = (v, e) ∧ ∀ p ∈ l, p.2.bid_price ≤ v) ∨
    (v < (bidFold l (v, e)).1 ∧
     (∃ p ∈ l, p.2.bid_price = (bidFold l (v, e)).1) ∧
     (∀ p ∈ l, p.2.bid_price ≤ (bidFold l (v, e)).1) ∧
     (l.find? fun p => decide (v < p.2.bid_price) &&
        decide ((bidFold l (v, e)).1 ≤ p.2.bid_price)).map Prod.fst =
       some (bidFold l (v, e)).2) := by
  induction l generalizing v e with
  | nil => exact Or.inl ⟨rfl, by simp⟩
  | cons p rest ih =>
      obtain ⟨pex, pd⟩ := p
      by_cases h : v < pd.bid_price
      · have hstep : bidFold ((pex, pd) :: rest) (v, e)
            = bidFold rest (pd.bid_price, pex) := by
          simp only [bidFold, bidStep, if_pos h]
        rcases ih pd.bid_price pex with ⟨hEq, hAll⟩ | ⟨hlt, hex, hall, hfind⟩
        · rw [hstep, hEq]
          refine Or.inr ⟨h, ⟨(pex, pd), List.mem_cons_self _ _, rfl⟩, ?_, ?_⟩
          · intro q hq
            rcases List.mem_cons.mp hq with rfl | hq
            · exact le_refl _
            · exact hAll q hq
          · rw [List.find?_cons_of_pos _ (by simp [h])]
            rfl
        · rw [hstep]
          refine Or.inr ⟨lt_trans h hlt, ?_, ?_, ?_⟩
          · obtain ⟨q, hq, hq2⟩ := hex
            exact ⟨q, List.mem_cons_of_mem _ hq, hq2⟩
          · intro q hq
            rcases List.mem_cons.mp hq with rfl | hq
            · exact le_of_lt hlt
            · exact hall q hq
          · rw [List.find?_cons_of_neg _ (by simp [not_le.mpr hlt])]
            rw [find?_congrOn rest _
              (fun q => decide (pd.bid_price < q.2.bid_price) &&
                decide ((bidFold rest (pd.bid_price, pex)).1 ≤ q.2.bid_price))
              ?_]
            · exact hfind
            · intro q hq
              by_cases h2 : (bidFold rest (pd.bid_price, pex)).1 ≤ q.2.bid_price
              · have hv1 : v < q.2.bid_price :=
                  lt_of_lt_of_le (lt_trans h hlt) h2
                have hp1 : pd.bid_price < q.2.bid_price :=
                  lt_of_lt_of_le hlt h2
                simp [hv1, hp1, h2]
              · simp [h2]
      · have hstep : bidFold ((pex, pd) :: rest) (v, e) = bidFold rest (v, e) := by
          simp only [bidFold, bidStep, if_neg h]
        rcases ih v e with ⟨hEq, hAll⟩ | ⟨hlt, hex, hall, hfind⟩
        · rw [hstep, hEq]
          refine Or.inl ⟨rfl, ?_⟩
          intro q hq
          rcases List.mem_cons.mp hq with rfl | hq
          · exact le_of_not_lt h
          · exact hAll q hq
        · rw [hstep]
          refine Or.inr ⟨hlt, ?_, ?_, ?_⟩
          · obtain ⟨q, hq, hq2⟩ := hex
            exact ⟨q, List.mem_cons_of_mem _ hq, hq2⟩
          · intro q hq
            rcases List.mem_cons.mp hq with rfl | hq
            · exact le_trans (le_of_not_lt h) (le_of_lt hlt)
            · exact hall q hq
          · rw [List.find?_cons_of_neg _ (by simp [not_lt.mp (fun hc => h hc)])]
            exact hfind

/-- Mirror of `bidFold_spec` for the ask accumulator: either nothing beats
the seed downwards, or the result is the minimum ask and the exchange of
the first entry attaining it. -/
theorem askFoldQ_spec (l : List (String × MarketData)) (v : ℚ) (e : String) :
    (askFoldQ l (v, e) = (v, e) ∧ ∀ p ∈ l, v ≤ p.2.ask_price) ∨
    ((askFoldQ l (v, e)).1 < v ∧
     (∃ p ∈ l, p.2.ask_price = (askFoldQ l (v, e)).1) ∧
     (∀ p ∈ l, (askFoldQ l (v, e)).1 ≤ p.2.ask_price) ∧
     (l.find? fun p => decide (p.2.ask_price < v) &&
        decide (p.2.ask_price ≤ (askFoldQ l (v, e)).1)).map Prod.fst =
       some (askFoldQ l (v, e)).2) := by
  induction l generalizing v e with
  | nil => exact Or.inl ⟨rfl, by simp⟩
  | cons p rest ih =>
      obtain ⟨pex, pd⟩ := p
      by_cases h : pd.ask_price < v
      · have hstep : askFoldQ ((pex, pd) :: rest) (v, e)
            = askFoldQ rest (pd.ask_price, pex) := by
          simp only [askFoldQ, if_pos h]
        rcases ih pd.ask_price pex with ⟨hEq, hAll⟩ | ⟨hlt, hex, hall, hfind⟩
        · rw [hstep, hEq]
          refine Or.inr ⟨h, ⟨(pex, pd), List.mem_cons_self _ _, rfl⟩, ?_, ?_⟩
          · intro q hq
            rcases List.mem_cons.mp hq with rfl | hq
            · exact le_refl _
            · exact hAll q hq
          · rw [List.find?_cons_of_pos _ (by simp [h])]
            rfl
        · rw [hstep]
          refine Or.inr ⟨lt_trans hlt h, ?_, ?_, ?_⟩
          · obtain ⟨q, hq, hq2⟩ := hex
            exact ⟨q, List.mem_cons_of_mem _ hq, hq2⟩
          · intro q hq
            rcases List.mem_cons.mp hq with rfl | hq
            · exact le_of_lt hlt
            · exact hall q hq
          · rw [List.find?_cons_of_neg _ (by simp [not_le.mpr hlt])]
            rw [find?_congrOn rest _
              (fun q => decide (q.2.ask_price < pd.ask_price) &&
                decide (q.2.ask_price ≤ (askFoldQ rest (pd.ask_price, pex)).1))
              ?_]
            · exact hfind
            · intro q hq
              by_cases h2 : q.2.ask_price ≤ (askFoldQ rest (pd.ask_price, pex)).1
              · have hv1 : q.2.ask_price < v :=
                  lt_of_le_of_lt h2 (lt_trans hlt h)
                have hp1 : q.2.ask_price < pd.ask_price :=
                  lt_of_le_of_lt h2 hlt
                simp [hv1, hp1, h2]
              · simp [h2]
      · have hstep : askFoldQ ((pex, pd) :: rest) (v, e)
            = askFoldQ rest (v, e) := by
          simp only [askFoldQ, if_neg h]
        rcases ih v e with ⟨hEq, hAll⟩ | ⟨hlt, hex, hall, hfind⟩
        · rw [hstep, hEq]
          refine Or.inl ⟨rfl, ?_⟩
          intro q hq
          rcases List.mem_cons.mp hq with rfl | hq
          · exact le_of_not_lt h
          · exact hAll q hq
        · rw [hstep]
          refine Or.inr ⟨hlt, ?_, ?_, ?_⟩
          · obtain ⟨q, hq, hq2⟩ := hex
            exact ⟨q, List.mem_cons_of_mem _ hq, hq2⟩
          · intro q hq
            rcases List.mem_cons.mp hq with rfl | hq
            · exact le_trans (le_of_lt hlt) (le_of_not_lt h)
            · exact hall q hq
          · rw [List.find?_cons_of_neg _ (by simp [not_lt.mp (fun hc => h hc)])]
            exact hfind

/-- C1: on a nonempty map of individually valid snapshots,
`consolidate_bbo` returns a quote whose best bid is the maximum bid with
the first exchange in iteration order attaining it, whose best ask is the
minimum ask with the same first-encountered tie-break, and whose derived
fields satisfy `mid = (bid + ask)/2`, `spreadAbs = ask - bid` and
`spreadPct = spreadAbs/bid*100`. -/
theorem c1_cbbo_best_prices_and_venues (sym : String)
    (md : List (String × MarketData)) (now : Nat)
    (hne : md ≠ [])
    (hv : ∀ p ∈ md, 0 < p.2.bid_price ∧ p.2.bid_price < p.2.ask_price) :
    ∃ c, consolidate_bbo sym md now = .ok c ∧
      (∀ p ∈ md, p.2.bid_price ≤ c.best_bid_price) ∧
      (∃ p ∈ md, p.2.bid_price = c.best_bid_price) ∧
      ((md.find? fun p => decide (p.2.bid_price = c.best_bid_price)).map
        Prod.fst = some c.best_bid_exchange) ∧
      (∀ p ∈ md, c.best_ask_price ≤ p.2.ask_price) ∧
      (∃ p ∈ md, p.2.ask_price = c.best_ask_price) ∧
      ((md.find? fun p => decide (p.2.ask_price = c.best_ask_price)).map
        Prod.fst = some c.best_ask_exchange) ∧
      c.mid_price = (c.best_bid_price + c.best_ask_price) / 2 ∧
      c.spread_absolute = c.best_ask_price - c.best_bid_price ∧
      c.spread_percentage = c.spread_absolute / c.best_bid_price * 100 := by
  cases md with
  | nil => exact absurd rfl hne
  | cons q rest =>
      have haf : askFold (q :: rest) (none, "") =
          (some (askFoldQ rest (q.2.ask_price, q.1)).1,
           (askFoldQ rest (q.2.ask_price, q.1)).2) := by
        show askFold rest (askStep (none, "") q) = _
        rw [show askStep (none, "") q = (some q.2.ask_price, q.1) from rfl,
          askFold_some]
      have hcons : consolidate_bbo sym (q :: rest) now =
          .ok (mkConsolidatedBBO sym (bidFold (q :: rest) (0, "")).1
            (bidFold (q :: rest) (0, "")).2
            (askFoldQ rest (q.2.ask_price, q.1)).1
            (askFoldQ rest (q.2.ask_price, q.1)).2
            (((bidFold (q :: rest) (0, "")).1 +
              (askFoldQ rest (q.2.ask_price, q.1)).1) / 2) now
            ((q :: rest).map (·.1))) := by
        simp only [consolidate_bbo, bboLoop_eq, haf]
        rfl
      rcases bidFold_spec (q :: rest) 0 "" with ⟨_, hAll⟩ | ⟨hlt, hex, hall, hfind⟩
      · exact absurd (hAll q (List.mem_cons_self q rest))
          (not_le.mpr (hv q (List.mem_cons_self q rest)).1)
      have hbfind : ((q :: rest).find? fun p =>
          decide (p.2.bid_price = (bidFold (q :: rest) (0, "")).1)).map
            Prod.fst = some (bidFold (q :: rest) (0, "")).2 := by
        rw [find?_congrOn (q :: rest) _
          (fun p => decide ((0 : ℚ) < p.2.bid_price) &&
            decide ((bidFold (q :: rest) (0, "")).1 ≤ p.2.bid_price)) ?_]
        · exact hfind
        · intro p hp
          by_cases hb : p.2.bid_price = (bidFold (q :: rest) (0, "")).1
          · simp [hb, hlt]
          · have hnb : ¬ ((bidFold (q :: rest) (0, "")).1 ≤ p.2.bid_price) :=
              not_le.mpr (lt_of_le_of_ne (hall p hp) hb)
            simp [hb, hnb]
      rcases askFoldQ_spec rest q.2.ask_price q.1 with
        ⟨hAEq, hAAll⟩ | ⟨hAlt, hAex, hAall, hAfind⟩
      · -- the head's ask is never beaten: it is the minimum
        have hA1 : (askFoldQ rest (q.2.ask_price, q.1)).1 = q.2.ask_price := by
          rw [hAEq]
        have hA2 : (askFoldQ rest (q.2.ask_price, q.1)).2 = q.1 := by
          rw [hAEq]
        refine ⟨_, hcons, ?_, ?_, ?_, ?_, ?_, ?_, ?_, ?_, ?_⟩ <;>
          simp only [mkConsolidatedBBO]
        · exact hall
        · exact hex
        · exact hbfind
        · intro p hp
          rw [hA1]
          rcases List.mem_cons.mp hp with rfl | hp
          · exact le_refl _
          · exact hAAll p hp
        · exact ⟨q, List.mem_cons_self q rest, by rw [hA1]⟩
        · rw [List.find?_cons_of_pos _ (by simp [hA1])]
          simp [hA2]
      · -- some later entry strictly beats the head's ask
        refine ⟨_, hcons, ?_, ?_, ?_, ?_, ?_, ?_, ?_, ?_, ?_⟩ <;>
          simp only [mkConsolidatedBBO]
        · exact hall
        · exact hex
        · exact hbfind
        · intro p hp
          rcases List.mem_cons.mp hp with rfl | hp
          · exact le_of_lt hAlt
          · exact hAall p hp
        · obtain ⟨p, hp, hp2⟩ := hAex
          exact ⟨p, List.mem_cons_of_mem _ hp, hp2⟩
        · rw [List.find?_cons_of_neg _ (by simp [ne_of_gt hAlt])]
          rw [find?_congrOn rest _
            (fun p => decide (p.2.ask_price < q.2.ask_price) &&
              decide (p.2.ask_price ≤
                (askFoldQ rest (q.2.ask_price, q.1)).1)) ?_]
          · exact hAfind
          · intro p hp
            by_cases hb : p.2.ask_price = (askFoldQ rest (q.2.ask_price, q.1)).1
            · simp [hb, hAlt]
            · have hnb : ¬ (p.2.ask_price ≤
                  (askFoldQ rest (q.2.ask_price, q.1)).1) :=
                not_le.mpr (lt_of_le_of_ne (hAall p hp) (Ne.symm hb))
              simp [hb, hnb]

/-- Concrete two-venue snapshot map used to witness the C1 theorem. -/
def c1Md : List (String × MarketData) :=
  [("binance", ⟨"BTC/USDT", "binance", 50000, 1, 50001, 1, 50000, 0⟩),
   ("okx", ⟨"BTC/USDT", "okx", 49999, 1, 50000, 1, 49999, 0⟩)]

theorem c1_cbbo_best_prices_and_venues_witness :
    c1Md ≠ [] ∧
    (∀ p ∈ c1Md, 0 < p.2.bid_price ∧ p.2.bid_price < p.2.ask_price) ∧
    (∃ c, consolidate_bbo "BTC/USDT" c1Md 3 = .ok c ∧
      (∀ p ∈ c1Md, p.2.bid_price ≤ c.best_bid_price) ∧
      (∃ p ∈ c1Md, p.2.bid_price = c.best_bid_price) ∧
      ((c1Md.find? fun p => decide (p.2.bid_price = c.best_bid_price)).map
        Prod.fst = some c.best_bid_exchange) ∧
      (∀ p ∈ c1Md, c.best_ask_price ≤ p.2.ask_price) ∧
      (∃ p ∈ c1Md, p.2.ask_price = c.best_ask_price) ∧
      ((c1Md.find? fun p => decide (p.2.ask_price = c.best_ask_price)).map
        Prod.fst = some c.best_ask_exchange) ∧
      c.mid_price = (c.best_bid_price + c.best_ask_price) / 2 ∧
      c.spread_absolute = c.best_ask_price - c.best_bid_price ∧
      c.spread_percentage = c.spread_absolute / c.best_bid_price * 100) :=
  ⟨by decide, by decide,
   c1_cbbo_best_prices_and_venues "BTC/USDT" c1Md 3 (by decide) (by decide)⟩
